import Mathlib

/-!
Shallow embedding of the DataTable derived-state pipeline
(HW1/challenge2: `v4-results/src/components/DataTable.tsx`, with the
`v3-results/DataTable.tsx` and `v2-results/DataTable.tsx` variants where
they differ), together with proofs about the Filter, Sort and Paginate
stages and the coordinator state machine.

Scalar field values are modelled by `JSValue` (null, undefined, integer
numbers, strings); a row is an association list from field keys to values,
so that a missing key reads as `undefined`, as in JavaScript.  JavaScript
string primitives used by the component (`toLowerCase`, `trim`,
`includes`, `String(v)`, `localeCompare`) are modelled by executable
functions over `List Char`, and the stable ECMAScript `Array.prototype.sort`
is modelled by a stable insertion sort.
-/

/-- A JavaScript scalar field value as used by the table component:
`null`, `undefined`, a (integer) number, or a string. -/
inductive JSValue where
  | null : JSValue
  | undef : JSValue
  | num : Int → JSValue
  | str : String → JSValue
deriving DecidableEq, Repr

/-- A row is a record of named scalar fields: an association list from
field key to value.  Reading an absent key yields `undefined`, as
JavaScript property access does. -/
def Row : Type := List (String × JSValue)

instance : DecidableEq Row := by
  unfold Row; infer_instance

/-- Model of `row[col.key]`: JavaScript property read, `undefined` when absent. -/
def getField (r : Row) (k : String) : JSValue :=
  match r.find? (fun p => p.1 = k) with
  | some p => p.2
  | none => JSValue.undef

/-- A column spec: accessor key and the optional `sortable?: boolean`
flag (`none` models an absent flag).  The display label and custom
render function are irrelevant to the pipeline and omitted. -/
structure Col where
  key : String
  sortable : Option Bool
deriving DecidableEq, Repr

/-- Model of `aVal == null` in JavaScript: true exactly for `null` and `undefined`. -/
def isNullish : JSValue → Bool
  | JSValue.null => true
  | JSValue.undef => true
  | _ => false

/-! ### JavaScript string primitives, modelled over `List Char` -/

/-- Model of `Char` lowering done by `String.prototype.toLowerCase` on
ASCII letters. -/
def lowerChar (c : Char) : Char :=
  if 'A' ≤ c && c ≤ 'Z' then Char.ofNat (c.toNat + 32) else c

/-- Model of `String.prototype.toLowerCase` (ASCII). -/
def lowerS (s : String) : String :=
  String.mk (s.toList.map lowerChar)

/-- ASCII whitespace, as removed by `String.prototype.trim`. -/
def isWS (c : Char) : Bool :=
  c = ' ' || c = '\t' || c = '\n' || c = '\r'

/-- Model of `String.prototype.trim`: drop whitespace from both ends. -/
def trimS (s : String) : String :=
  String.mk (((s.toList.dropWhile isWS).reverse.dropWhile isWS).reverse)

/-- Whether `needle` occurs at the start of `hay`. -/
def headMatch : List Char → List Char → Bool
  | [], _ => true
  | _ :: _, [] => false
  | a :: as, b :: bs => a = b && headMatch as bs

/-- Whether `needle` occurs somewhere in `hay`. -/
def hasSub (needle : List Char) : List Char → Bool
  | [] => needle.isEmpty
  | c :: cs => headMatch needle (c :: cs) || hasSub needle cs

/-- Model of `hay.includes(needle)` (`String.prototype.includes`). -/
def strIncludes (hay needle : String) : Bool :=
  hasSub needle.toList hay.toList

/-! ### `String(v)`: JavaScript stringification of scalar values -/

/-- The ASCII digit character of `d` (for `d < 10`). -/
def digitCh (d : Nat) : Char := Char.ofNat (48 + d)

/-- Decimal representation of a natural number, as `String(n)` produces
for a nonnegative integer. -/
def natToStrL (n : Nat) : List Char :=
  if n = 0 then ['0'] else ((Nat.digits 10 n).map digitCh).reverse

/-- Decimal representation of an integer, as `String(n)` produces. -/
def intToStrL : Int → List Char
  | Int.ofNat n => natToStrL n
  | Int.negSucc n => '-' :: natToStrL (n + 1)

/-- Model of `String(v)` on a scalar value: `String(null) = "null"`,
`String(undefined) = "undefined"`, decimal for numbers, identity on
strings. -/
def toStrJS : JSValue → String
  | JSValue.null => "null"
  | JSValue.undef => "undefined"
  | JSValue.num n => String.mk (intToStrL n)
  | JSValue.str s => s

/-! ### Filter stage -/

/-- The per-row match predicate of the spec ("at least one column's field
value, stringified and case-folded, contains the folded query as a
substring"), with the folded query passed in explicitly.  Used both to
state the filter-membership claim and, applied to the query the code
actually folds, its amendment. -/
def specFilterMatch (cols : List Col) (r : Row) (folded : String) : Bool :=
  cols.any fun c => strIncludes (lowerS (toStrJS (getField r c.key))) folded

/-- v4 `filteredData` (DataTable.tsx lines 169-181):
`if (!filterText.trim()) return data;` then
`searchTerm = filterText.toLowerCase().trim()` and
`data.filter(row => columns.some(col => String(row[col.key]).toLowerCase().includes(searchTerm)))`.
Note: no null/undefined guard — `String(value)` coerces them. -/
def filteredData (data : List Row) (cols : List Col) (filterText : String) :
    List Row :=
  if trimS filterText = "" then data
  else
    let searchTerm := trimS (lowerS filterText)
    data.filter fun row =>
      cols.any fun col =>
        strIncludes (lowerS (toStrJS (getField row col.key))) searchTerm

/-- v3 per-column check (`useFilter`): a null/undefined value returns
`false` before stringification. -/
def v3ColMatch (v : JSValue) (lowerFilter : String) : Bool :=
  if v = JSValue.null ∨ v = JSValue.undef then false
  else strIncludes (lowerS (toStrJS v)) lowerFilter

/-- v3 `useFilter` (DataTable.tsx lines 6-24): guard on
`!filterText.trim()`, search term `filterText.toLowerCase()` (not
trimmed), and an explicit null/undefined guard per column. -/
def filteredDataV3 (data : List Row) (cols : List Col) (filterText : String) :
    List Row :=
  if trimS filterText = "" then data
  else
    let lowerFilter := lowerS filterText
    data.filter fun row =>
      cols.any fun col => v3ColMatch (getField row col.key) lowerFilter

/-- v2 per-column check (`useFiltering.filterData`): `value == null`
returns `false` before stringification. -/
def v2ColMatch (v : JSValue) (searchTerm : String) : Bool :=
  if isNullish v then false
  else strIncludes (lowerS (toStrJS v)) searchTerm

/-- v2 `useFiltering.filterData` (DataTable.tsx lines 96-109): guard on
`!filterText.trim()`, search term `filterText.toLowerCase().trim()`,
iterates `columns.map(col => col.key)` and guards `value == null`. -/
def filteredDataV2 (data : List Row) (cols : List Col) (filterText : String) :
    List Row :=
  if trimS filterText = "" then data
  else
    let searchTerm := trimS (lowerS filterText)
    data.filter fun row =>
      (cols.map Col.key).any fun k => v2ColMatch (getField row k) searchTerm

example : trimS "b " = "b" := by decide
example : lowerS "AbC" = "abc" := by decide
example : strIncludes "ab" "b" = true := by decide
example : strIncludes "ab" "b " = false := by decide
example : toStrJS JSValue.null = "null" := by decide

/-! ### Sort stage -/

/-- Sort direction: `'asc' | 'desc'`. -/
inductive SortDir where
  | asc : SortDir
  | desc : SortDir
deriving DecidableEq, Repr

/-- The `SortConfig` state: at most one active key, plus a direction. -/
structure SortCfg where
  key : Option String
  dir : SortDir
deriving DecidableEq, Repr

/-- Three-way comparison of characters (model of per-code-unit
comparison inside `localeCompare` in the C locale). -/
def chCmp (a b : Char) : Int :=
  if a < b then -1 else if b < a then 1 else 0

/-- Lexicographic three-way comparison of character lists. -/
def lexCmp : List Char → List Char → Int
  | [], [] => 0
  | [], _ :: _ => -1
  | _ :: _, [] => 1
  | a :: as, b :: bs => if chCmp a b = 0 then lexCmp as bs else chCmp a b

/-- Model of `String(a).localeCompare(String(b))`'s sign as lexicographic
string comparison. -/
def strCmp (s t : String) : Int := lexCmp s.toList t.toList

/-- The typed branch of the v4 comparator (DataTable.tsx lines 200-206):
numbers compare by subtraction, everything else by stringified
comparison. -/
def baseCompare (u v : JSValue) : Int :=
  match u, v with
  | JSValue.num a, JSValue.num b => a - b
  | _, _ => strCmp (toStrJS u) (toStrJS v)

/-- The full v4 comparator body (DataTable.tsx lines 189-208) on the two
field values: `aVal === bVal` gives 0; null/undefined sorts after
defined values regardless of direction; otherwise the base comparison,
negated when descending. -/
def valCompare (dir : SortDir) (u v : JSValue) : Int :=
  if u = v then 0
  else if isNullish u then 1
  else if isNullish v then -1
  else
    let comparison := baseCompare u v
    if dir = SortDir.asc then comparison else -comparison

/-- The comparator passed to `sort` by v4's `sortedData` for key `k`. -/
def rowCmp (dir : SortDir) (k : String) (a b : Row) : Int :=
  valCompare dir (getField a k) (getField b k)

/-- Stable insertion of `x`: `x` moves past exactly the elements it
strictly follows (`c x y > 0`), so elements that tie keep their
relative order.  This together with `jsSort` models the stable
ECMAScript `Array.prototype.sort`. -/
def jsInsert (c : α → α → Int) (x : α) : List α → List α
  | [] => [x]
  | y :: ys => if 0 < c x y then y :: jsInsert c x ys else x :: y :: ys

/-- Stable sort by a JavaScript comparator (model of the ES2019 stable
`Array.prototype.sort(c)`). -/
def jsSort (c : α → α → Int) : List α → List α
  | [] => []
  | x :: xs => jsInsert c x (jsSort c xs)

/-- v4 `sortedData` (DataTable.tsx lines 184-210): identity when no key
is active, else a stable sort of a copy by `rowCmp`. -/
def sortedData (rows : List Row) (cfg : SortCfg) : List Row :=
  match cfg.key with
  | none => rows
  | some k => jsSort (rowCmp cfg.dir k) rows

/-- Pair each element with its index, starting at `n` (models
`arr.map((item, index) => ({item, index}))`, with the index first). -/
def indexedFrom (n : Nat) : List α → List (Nat × α)
  | [] => []
  | a :: as => (n, a) :: indexedFrom (n + 1) as

/-- The decorated comparator of v2 `stableSort`:
`result !== 0 ? result : a.index - b.index`. -/
def decoratedCmp (cmp : α → α → Int) (x y : Nat × α) : Int :=
  if cmp x.2 y.2 ≠ 0 then cmp x.2 y.2 else (x.1 : Int) - y.1

/-- v2 `stableSort` (DataTable.tsx lines 51-58): decorate with the
original index, sort with the index as final tie-break, undecorate. -/
def stableSortV2 (cmp : α → α → Int) (arr : List α) : List α :=
  (jsSort (decoratedCmp cmp) (indexedFrom 0 arr)).map Prod.snd

example :
    sortedData
      [[("a", JSValue.str "b")], [("a", JSValue.null)], [("a", JSValue.str "a")]]
      ⟨some "a", SortDir.desc⟩ =
    [[("a", JSValue.str "b")], [("a", JSValue.str "a")], [("a", JSValue.null)]] := by
  decide

/-! ### Pagination stage -/

/-- Model of `Math.max(1, Math.ceil(len / pageSize))` (v4 line 213; v3
`usePagination` lines 65-68), for a positive `pageSize`. -/
def totalPagesC (len pageSize : Nat) : Nat :=
  max 1 ((len + pageSize - 1) / pageSize)

/-- Model of `Math.min(currentPage, totalPages)` (v4 line 214 `safePage`; v3
lines 70-73). -/
def safePageC (currentPage totalPages : Nat) : Nat :=
  min currentPage totalPages

/-- Model of `rows.slice(startIndex, startIndex + pageSize)` with
`startIndex = (safePage - 1) * pageSize` (v4 lines 217-220; v3 lines
75-78). -/
def paginatedData (rows : List Row) (safePage pageSize : Nat) : List Row :=
  (rows.drop ((safePage - 1) * pageSize)).take pageSize

/-- The pagination stage as a whole: page slice, total pages, total
items. -/
def paginateStage (rows : List Row) (currentPage pageSize : Nat) :
    List Row × Nat × Nat :=
  let tp := totalPagesC rows.length pageSize
  let sp := safePageC currentPage tp
  (paginatedData rows sp pageSize, tp, rows.length)

/-! ### Coordinator state machine -/

/-- The mutable state owned by the component: filter text, sort config,
stored current page and page size.  `data` and `columns` are props,
passed as parameters to the transition function. -/
structure TState where
  filterText : String
  sortKey : Option String
  sortDir : SortDir
  currentPage : Nat
  pageSize : Nat
deriving DecidableEq, Repr

/-- Initial state: empty filter, `{key: null, direction: 'asc'}`,
page 1, the default page size. -/
def initState (defaultPageSize : Nat) : TState :=
  ⟨"", none, SortDir.asc, 1, defaultPageSize⟩

/-- Filter then sort: the derived row list feeding pagination. -/
def derivedRows (rows : List Row) (cols : List Col) (s : TState) : List Row :=
  sortedData (filteredData rows cols s.filterText) ⟨s.sortKey, s.sortDir⟩

/-- The `totalPages` the component computes in state `s`. -/
def tpOf (rows : List Row) (cols : List Col) (s : TState) : Nat :=
  totalPagesC (derivedRows rows cols s).length s.pageSize

/-- v3 `goToPage` (lines 80-86): `Math.max(1, Math.min(page, totalPages))`,
persisted into `currentPage`. -/
def clampPage (totalPages : Nat) (page : Int) : Nat :=
  (max 1 (min page (totalPages : Int))).toNat

/-- The public commands of the pipeline. -/
inductive Op where
  | setFilterQuery : String → Op
  | toggleSort : String → Op
  | setPageSize : Nat → Op
  | goToPage : Int → Op
  | nextPage : Op
  | prevPage : Op

/-- v4 `handleSort` direction update (lines 223-229):
`prev.key === key && prev.direction === 'asc' ? 'desc' : 'asc'`
(identically v3 `useSort.handleSort`, lines 50-56). -/
def toggledDir (s : TState) (k : String) : SortDir :=
  if s.sortKey = some k ∧ s.sortDir = SortDir.asc then SortDir.desc
  else SortDir.asc

/-- One public command.  `setFilterQuery`, `toggleSort` and
`setPageSize` update their slice and reset `currentPage` to 1 (v4
`handleFilterChange`/`handleSort`/`handlePageSizeChange`, lines
223-247); navigation clamps the target into `[1, totalPages]` and
persists it (v3 `goToPage`/`goToNextPage`/`goToPreviousPage`, lines
80-94, computed from the stored page). -/
def step (rows : List Row) (cols : List Col) (s : TState) : Op → TState
  | Op.setFilterQuery q => { s with filterText := q, currentPage := 1 }
  | Op.toggleSort k =>
      { s with sortKey := some k, sortDir := toggledDir s k, currentPage := 1 }
  | Op.setPageSize n => { s with pageSize := n, currentPage := 1 }
  | Op.goToPage n => { s with currentPage := clampPage (tpOf rows cols s) n }
  | Op.nextPage =>
      { s with currentPage := clampPage (tpOf rows cols s) ((s.currentPage : Int) + 1) }
  | Op.prevPage =>
      { s with currentPage := clampPage (tpOf rows cols s) ((s.currentPage : Int) - 1) }

/-- Run a sequence of public commands from a state. -/
def run (rows : List Row) (cols : List Col) (s : TState) (ops : List Op) : TState :=
  ops.foldl (step rows cols) s

/-- The atomic snapshot the component exposes: everything is derived
from the state in one pass; the observable `currentPage` is the clamped
`safePage` (v3 returns `currentPage: safePage`; v4 renders `safePage`). -/
structure Snap where
  pageRows : List Row
  totalPages : Nat
  totalItems : Nat
  currentPage : Nat
  pageSize : Nat
  sortKey : Option String
  sortDir : SortDir
  filterQuery : String
deriving DecidableEq

/-- Compute the snapshot of a state over the current props. -/
def snapshot (rows : List Row) (cols : List Col) (s : TState) : Snap :=
  let dr := derivedRows rows cols s
  let tp := totalPagesC dr.length s.pageSize
  let sp := safePageC s.currentPage tp
  ⟨paginatedData dr sp s.pageSize, tp, dr.length, sp, s.pageSize,
    s.sortKey, s.sortDir, s.filterText⟩

/-! ### UI event layer (header interactions, gated on `sortable`) -/

/-- UI-level events as wired in the component markup.  A header
interaction carries the index of the rendered column; v4 gates both the
click (`onClick={() => col.sortable && handleSort(col.key)}`, line 354)
and the keydown (lines 355-360) on the column's `sortable` flag, and v3
renders a sort button only when `column.sortable` is truthy (lines
210-227). -/
inductive UIEvent where
  | typeFilter : String → UIEvent
  | clickHeader : Nat → UIEvent
  | keyHeader : Nat → UIEvent
  | choosePageSize : Nat → UIEvent
  | clickPage : Int → UIEvent
  | clickNext : UIEvent
  | clickPrev : UIEvent

/-- The header gate: the sort command fires only when the rendered
column's `sortable` flag is truthy (`some true`). -/
def headerFire (rows : List Row) (cols : List Col) (s : TState) (i : Nat) : TState :=
  match cols[i]? with
  | some c => if c.sortable = some true then step rows cols s (Op.toggleSort c.key) else s
  | none => s

/-- One UI event. -/
def uiStep (rows : List Row) (cols : List Col) (s : TState) : UIEvent → TState
  | UIEvent.typeFilter q => step rows cols s (Op.setFilterQuery q)
  | UIEvent.clickHeader i => headerFire rows cols s i
  | UIEvent.keyHeader i => headerFire rows cols s i
  | UIEvent.choosePageSize n => step rows cols s (Op.setPageSize n)
  | UIEvent.clickPage n => step rows cols s (Op.goToPage n)
  | UIEvent.clickNext => step rows cols s Op.nextPage
  | UIEvent.clickPrev => step rows cols s Op.prevPage

/-- Run a sequence of UI events from a state. -/
def uiRun (rows : List Row) (cols : List Col) (s : TState) (evs : List UIEvent) : TState :=
  evs.foldl (uiStep rows cols) s

/-! ### Comparison lemmas -/

theorem chCmp_eq_zero_iff (a b : Char) : chCmp a b = 0 ↔ a = b := by
  unfold chCmp
  rcases lt_trichotomy a b with h | h | h
  · rw [if_pos h]
    constructor
    · intro hc; exact absurd hc (by decide)
    · intro he; exact absurd (he ▸ h) (lt_irrefl b)
  · subst h
    rw [if_neg (lt_irrefl a), if_neg (lt_irrefl a)]
    simp
  · rw [if_neg (lt_asymm h), if_pos h]
    constructor
    · intro hc; exact absurd hc (by decide)
    · intro he; exact absurd (he ▸ h) (lt_irrefl b)

theorem lexCmp_eq_zero_iff : ∀ as bs : List Char, lexCmp as bs = 0 ↔ as = bs
  | [], [] => by simp [lexCmp]
  | [], _ :: _ => by simp [lexCmp]
  | _ :: _, [] => by simp [lexCmp]
  | a :: as, b :: bs => by
    unfold lexCmp
    by_cases h : chCmp a b = 0
    · rw [if_pos h, lexCmp_eq_zero_iff as bs]
      have := (chCmp_eq_zero_iff a b).1 h
      subst this
      simp
    · rw [if_neg h]
      simp only [List.cons.injEq]
      exact ⟨fun hc => absurd hc h, fun hc => absurd ((chCmp_eq_zero_iff a b).2 hc.1) h⟩

theorem strCmp_eq_zero_iff (s t : String) : strCmp s t = 0 ↔ s = t := by
  unfold strCmp
  rw [lexCmp_eq_zero_iff]
  constructor
  · intro h
    exact congrArg String.mk h
  · intro h; rw [h]

theorem digitCh_inj_lt :
    ∀ d, d < 10 → ∀ e, e < 10 → digitCh d = digitCh e → d = e := by decide

theorem digitCh_toNat : ∀ d, d < 10 → (digitCh d).toNat = 48 + d := by decide

theorem map_digitCh_inj :
    ∀ l1 l2 : List Nat, (∀ x ∈ l1, x < 10) → (∀ x ∈ l2, x < 10) →
      l1.map digitCh = l2.map digitCh → l1 = l2
  | [], [], _, _, _ => rfl
  | [], _ :: _, _, _, h => by simp at h
  | _ :: _, [], _, _, h => by simp at h
  | a :: as, b :: bs, h1, h2, h => by
    simp only [List.map_cons, List.cons.injEq] at h
    have ha : a < 10 := h1 a (List.mem_cons_self _ _)
    have hb : b < 10 := h2 b (List.mem_cons_self _ _)
    have hab := digitCh_inj_lt a ha b hb h.1
    have htl := map_digitCh_inj as bs
      (fun x hx => h1 x (List.mem_cons_of_mem _ hx))
      (fun x hx => h2 x (List.mem_cons_of_mem _ hx)) h.2
    rw [hab, htl]

theorem digits_map_ne_zeroCh {n : Nat} (hn : n ≠ 0)
    (h : (Nat.digits 10 n).map digitCh = ['0']) : False := by
  cases hdig : Nat.digits 10 n with
  | nil => rw [hdig] at h; simp at h
  | cons d ds =>
    rw [hdig] at h
    simp only [List.map_cons, List.cons.injEq] at h
    have hds : ds = [] := by simpa using h.2
    have hdlt : d < 10 :=
      Nat.digits_lt_base (by norm_num) (hdig ▸ List.mem_cons_self d ds)
    have hd0 : d = 0 := by
      refine digitCh_inj_lt d hdlt 0 (by norm_num) ?_
      rw [h.1]; decide
    have h1 := Nat.ofDigits_digits 10 n
    rw [hdig, hd0, hds] at h1
    simp [Nat.ofDigits] at h1
    exact hn h1.symm

theorem natToStrL_inj {a b : Nat} (h : natToStrL a = natToStrL b) : a = b := by
  unfold natToStrL at h
  by_cases a0 : a = 0 <;> by_cases b0 : b = 0
  · rw [a0, b0]
  · exfalso
    rw [if_pos a0, if_neg b0] at h
    refine digits_map_ne_zeroCh b0 ?_
    have h2 := congrArg List.reverse h
    simpa using h2.symm
  · exfalso
    rw [if_neg a0, if_pos b0] at h
    refine digits_map_ne_zeroCh a0 ?_
    have h2 := congrArg List.reverse h
    simpa using h2
  · rw [if_neg a0, if_neg b0] at h
    have h2 := List.reverse_injective h
    have h3 := map_digitCh_inj _ _
      (fun x hx => Nat.digits_lt_base (by norm_num) hx)
      (fun x hx => Nat.digits_lt_base (by norm_num) hx) h2
    calc a = Nat.ofDigits 10 (Nat.digits 10 a) := (Nat.ofDigits_digits 10 a).symm
    _ = Nat.ofDigits 10 (Nat.digits 10 b) := by rw [h3]
    _ = b := Nat.ofDigits_digits 10 b

theorem natToStrL_ge48 {n : Nat} : ∀ c ∈ natToStrL n, 48 ≤ c.toNat := by
  intro c hc
  unfold natToStrL at hc
  by_cases n0 : n = 0
  · rw [if_pos n0] at hc
    simp at hc
    rw [hc]
    decide
  · rw [if_neg n0] at hc
    rw [List.mem_reverse] at hc
    obtain ⟨d, hd, hdc⟩ := List.mem_map.1 hc
    have hdlt : d < 10 := Nat.digits_lt_base (by norm_num) hd
    rw [← hdc, digitCh_toNat d hdlt]
    omega

theorem intToStrL_inj {a b : Int} (h : intToStrL a = intToStrL b) : a = b := by
  match a, b with
  | Int.ofNat m, Int.ofNat n =>
    simp only [intToStrL] at h
    rw [natToStrL_inj h]
  | Int.ofNat m, Int.negSucc n =>
    exfalso
    simp only [intToStrL] at h
    have : ('-' : Char) ∈ natToStrL m := by
      rw [h]; exact List.mem_cons_self _ _
    have := natToStrL_ge48 _ this
    simp at this
  | Int.negSucc m, Int.ofNat n =>
    exfalso
    simp only [intToStrL] at h
    have : ('-' : Char) ∈ natToStrL n := by
      rw [← h]; exact List.mem_cons_self _ _
    have := natToStrL_ge48 _ this
    simp at this
  | Int.negSucc m, Int.negSucc n =>
    simp only [intToStrL, List.cons.injEq, true_and] at h
    have h2 : m = n := by have := natToStrL_inj h; omega
    rw [h2]

/-! ### The tie relation of the sort comparator -/

/-- Canonical representative of a value under the comparator's tie
relation: `null` and `undefined` tie only with themselves; defined
values tie exactly when their stringifications agree (a number and the
string of its decimal digits tie). -/
def rep : JSValue → Bool ⊕ String
  | JSValue.null => Sum.inl false
  | JSValue.undef => Sum.inl true
  | JSValue.num n => Sum.inr (String.mk (intToStrL n))
  | JSValue.str s => Sum.inr s

theorem toStrJS_num_inj {a b : Int}
    (h : toStrJS (JSValue.num a) = toStrJS (JSValue.num b)) : a = b :=
  intToStrL_inj (congrArg String.data h)

/-- Negating by direction does not create or destroy ties. -/
theorem dirSign_eq_zero_iff (dir : SortDir) (c : Int) :
    (if dir = SortDir.asc then c else -c) = 0 ↔ c = 0 := by
  cases dir <;> simp

/-- The comparator ties exactly on equal canonical representatives. -/
theorem valCompare_eq_zero_iff (dir : SortDir) (u v : JSValue) :
    valCompare dir u v = 0 ↔ rep u = rep v := by
  by_cases huv : u = v
  · subst huv; simp [valCompare]
  · simp only [valCompare]
    rw [if_neg huv]
    cases u with
    | null => cases v <;> simp_all [isNullish, rep]
    | undef => cases v <;> simp_all [isNullish, rep]
    | num a =>
      cases v with
      | null => simp [isNullish, rep]
      | undef => simp [isNullish, rep]
      | num b =>
        have hab : a ≠ b := fun h => huv (by rw [h])
        simp only [isNullish]
        rw [if_neg (by simp), if_neg (by simp), dirSign_eq_zero_iff]
        constructor
        · intro h
          exfalso
          have h2 : a - b = 0 := by simpa [baseCompare] using h
          exact hab (by omega)
        · intro h
          exfalso
          simp only [rep, Sum.inr.injEq] at h
          exact hab (intToStrL_inj (congrArg String.data h))
      | str s =>
        simp only [isNullish]
        rw [if_neg (by simp), if_neg (by simp), dirSign_eq_zero_iff]
        have hb : baseCompare (JSValue.num a) (JSValue.str s) =
            strCmp (String.mk (intToStrL a)) s := rfl
        rw [hb, strCmp_eq_zero_iff]
        simp [rep]
    | str s =>
      cases v with
      | null => simp [isNullish, rep]
      | undef => simp [isNullish, rep]
      | num b =>
        simp only [isNullish]
        rw [if_neg (by simp), if_neg (by simp), dirSign_eq_zero_iff]
        have hb : baseCompare (JSValue.str s) (JSValue.num b) =
            strCmp s (String.mk (intToStrL b)) := rfl
        rw [hb, strCmp_eq_zero_iff]
        simp [rep]
      | str t =>
        simp only [isNullish]
        rw [if_neg (by simp), if_neg (by simp), dirSign_eq_zero_iff]
        have hb : baseCompare (JSValue.str s) (JSValue.str t) = strCmp s t := rfl
        rw [hb, strCmp_eq_zero_iff]
        simp [rep]

/-! ### Generic properties of the stable sort model -/

theorem jsInsert_perm (c : α → α → Int) (x : α) :
    ∀ l : List α, (jsInsert c x l).Perm (x :: l)
  | [] => List.Perm.refl _
  | y :: ys => by
    unfold jsInsert
    by_cases h : 0 < c x y
    · rw [if_pos h]
      exact ((jsInsert_perm c x ys).cons y).trans (List.Perm.swap x y ys)
    · rw [if_neg h]

theorem jsSort_perm (c : α → α → Int) : ∀ l : List α, (jsSort c l).Perm l
  | [] => List.Perm.refl _
  | x :: xs => by
    unfold jsSort
    exact (jsInsert_perm c x (jsSort c xs)).trans ((jsSort_perm c xs).cons x)

theorem mem_jsInsert {c : α → α → Int} {x : α} {l : List α} {z : α} :
    z ∈ jsInsert c x l ↔ z = x ∨ z ∈ l := by
  rw [(jsInsert_perm c x l).mem_iff, List.mem_cons]

theorem mem_jsSort {c : α → α → Int} {l : List α} {z : α} :
    z ∈ jsSort c l ↔ z ∈ l :=
  (jsSort_perm c l).mem_iff

/-- Inserting `x` preserves the `p`-filtered subsequence, provided `x`
cannot strictly follow (`c x z > 0`) any `p`-element of the list: `x`
lands before every `p`-element when `p x`, past the filter otherwise. -/
theorem filter_jsInsert (c : α → α → Int) (p : α → Bool) (x : α) :
    ∀ l : List α, (∀ z ∈ l, p x = true → p z = true → c x z ≤ 0) →
      (jsInsert c x l).filter p =
        if p x then x :: l.filter p else l.filter p
  | [], _ => by
    unfold jsInsert
    cases hx : p x <;> simp [List.filter_cons, hx]
  | z :: zs, h => by
    unfold jsInsert
    by_cases hc : 0 < c x z
    · rw [if_pos hc]
      cases hx : p x with
      | false =>
        have ih := filter_jsInsert c p x zs
          (fun w hw hpx hpw => h w (List.mem_cons_of_mem _ hw) hpx hpw)
        rw [hx] at ih
        rw [if_neg Bool.false_ne_true] at ih
        cases hz : p z <;>
          simp [List.filter_cons, hz, ih, hx]
      | true =>
        have hz : p z = false := by
          cases hz : p z with
          | false => rfl
          | true =>
            exact absurd (h z (List.mem_cons_self _ _) hx hz) (by omega)
        have ih := filter_jsInsert c p x zs
          (fun w hw hpx hpw => h w (List.mem_cons_of_mem _ hw) hpx hpw)
        rw [hx] at ih
        simp only [if_pos rfl] at ih
        simp [List.filter_cons, hz, ih, hx]
    · rw [if_neg hc]
      cases hx : p x <;> simp [List.filter_cons, hx]

/-- Stability of the sort model: the `p`-filtered subsequence is
unchanged whenever, pairwise in input order, an earlier `p`-element
never strictly follows a later `p`-element. -/
theorem filter_jsSort (c : α → α → Int) (p : α → Bool) :
    ∀ l : List α,
      l.Pairwise (fun x z => p x = true → p z = true → c x z ≤ 0) →
      (jsSort c l).filter p = l.filter p
  | [], _ => rfl
  | x :: xs, h => by
    rw [List.pairwise_cons] at h
    unfold jsSort
    have hins := filter_jsInsert c p x (jsSort c xs)
      (fun z hz => h.1 z (mem_jsSort.1 hz))
    rw [hins, filter_jsSort c p xs h.2]
    cases hx : p x <;> simp [List.filter_cons, hx]

/-- Insertion preserves `Pairwise R` for a transitive `R` that the
comparator refines in both directions. -/
theorem pairwise_jsInsert {c : α → α → Int} {R : α → α → Prop}
    (hT : ∀ a b d, R a b → R b d → R a d)
    (hF1 : ∀ a b, ¬0 < c a b → R a b) (hF2 : ∀ a b, 0 < c a b → R b a)
    (x : α) :
    ∀ l : List α, l.Pairwise R → (jsInsert c x l).Pairwise R
  | [], _ => List.pairwise_singleton R x
  | z :: zs, h => by
    rw [List.pairwise_cons] at h
    unfold jsInsert
    by_cases hc : 0 < c x z
    · rw [if_pos hc]
      rw [List.pairwise_cons]
      refine ⟨fun w hw => ?_, pairwise_jsInsert hT hF1 hF2 x zs h.2⟩
      rcases mem_jsInsert.1 hw with hwx | hwz
      · rw [hwx]; exact hF2 x z hc
      · exact h.1 w hwz
    · rw [if_neg hc]
      rw [List.pairwise_cons]
      refine ⟨fun w hw => ?_, List.pairwise_cons.2 h⟩
      rcases List.mem_cons.1 hw with hwz | hwzs
      · rw [hwz]; exact hF1 x z hc
      · exact hT x z w (hF1 x z hc) (h.1 w hwzs)

/-- The sort model output is pairwise ordered by any transitive relation
the comparator refines in both directions. -/
theorem pairwise_jsSort {c : α → α → Int} {R : α → α → Prop}
    (hT : ∀ a b d, R a b → R b d → R a d)
    (hF1 : ∀ a b, ¬0 < c a b → R a b) (hF2 : ∀ a b, 0 < c a b → R b a) :
    ∀ l : List α, (jsSort c l).Pairwise R
  | [] => List.Pairwise.nil
  | x :: xs => pairwise_jsInsert hT hF1 hF2 x (jsSort c xs)
      (pairwise_jsSort hT hF1 hF2 xs)

theorem pairwise_of_forall {R : α → α → Prop} (h : ∀ a b, R a b) :
    ∀ l : List α, l.Pairwise R
  | [] => List.Pairwise.nil
  | a :: as => List.pairwise_cons.2 ⟨fun b _ => h a b, pairwise_of_forall h as⟩

/-! ### Concrete rows and columns used in counterexamples and witnesses -/

def colF : Col := ⟨"f", none⟩

def rowAB : Row := [("f", JSValue.str "ab")]

def colG : Col := ⟨"g", none⟩

def rowNull : Row := [("g", JSValue.null)]

/-! ### Claim C1: filter membership -/

/-- C1 (amended).  Filter membership for the v4 Filter stage: a query
that is empty after trimming returns the input unchanged; otherwise a
row is kept iff at least one column's field value, stringified and
case-folded, contains the case-folded **and trimmed** query as a
substring.  (The original claim folded but did not trim the query; see
the counterexample.) -/
theorem filter_membership (rows : List Row) (cols : List Col) (q : String) :
    (trimS q = "" → filteredData rows cols q = rows) ∧
    (trimS q ≠ "" → ∀ r : Row,
      r ∈ filteredData rows cols q ↔
        r ∈ rows ∧ specFilterMatch cols r (trimS (lowerS q)) = true) := by
  constructor
  · intro h
    unfold filteredData
    rw [if_pos h]
  · intro h r
    unfold filteredData
    rw [if_neg h]
    rw [List.mem_filter]
    rfl

/-- C1 witness: both branches of `filter_membership` at concrete
inputs. -/
theorem filter_membership_witness :
    (filteredData [rowAB] [colF] " " = [rowAB]) ∧
    (rowAB ∈ filteredData [rowAB] [colF] "b" ↔
      rowAB ∈ [rowAB] ∧ specFilterMatch [colF] rowAB (trimS (lowerS "b")) = true) :=
  ⟨(filter_membership [rowAB] [colF] " ").1 (by decide),
   (filter_membership [rowAB] [colF] "b").2 (by decide) rowAB⟩

/-- C1 counterexample: for the query `"b "` (non-empty after trimming),
the v4 Filter stage keeps the row whose only field is `"ab"`, although
no stringified case-folded field value contains the case-folded query
`"b "` as a substring — the code matches against the *trimmed* folded
query, not the folded query. -/
theorem filter_membership_counterexample :
    rowAB ∈ filteredData [rowAB] [colF] "b " ∧
    trimS "b " ≠ "" ∧
    specFilterMatch [colF] rowAB (lowerS "b ") = false := by decide

/-! ### Claim C4: null/undefined fields in the filter -/

theorem v3ColMatch_nullish {v : JSValue} (hv : isNullish v = true)
    (q' : String) : v3ColMatch v q' = false := by
  cases v <;> simp_all [isNullish, v3ColMatch]

theorem v2ColMatch_nullish {v : JSValue} (hv : isNullish v = true)
    (q' : String) : v2ColMatch v q' = false := by
  unfold v2ColMatch
  rw [if_pos hv]

/-- C4 (amended).  In the v3 and v2 Filter stages a null/undefined field
value never contributes a match (the per-column check returns `false`
before any stringification), and a row all of whose column fields are
null/undefined is never produced by a non-trivial filter.  (In the v4
Filter stage, by contrast, null/undefined fields are coerced by
`String()` to `"null"`/`"undefined"` and can match — see the
counterexample.) -/
theorem filter_null_guard (v : JSValue) (q' : String) (rows : List Row)
    (cols : List Col) (q : String) (r : Row) :
    (isNullish v = true → v3ColMatch v q' = false) ∧
    (isNullish v = true → v2ColMatch v q' = false) ∧
    (trimS q ≠ "" → (∀ c ∈ cols, isNullish (getField r c.key) = true) →
      r ∉ filteredDataV3 rows cols q) ∧
    (trimS q ≠ "" → (∀ c ∈ cols, isNullish (getField r c.key) = true) →
      r ∉ filteredDataV2 rows cols q) := by
  refine ⟨fun hv => v3ColMatch_nullish hv q', fun hv => v2ColMatch_nullish hv q',
    ?_, ?_⟩
  · intro hq hall hmem
    simp only [filteredDataV3, if_neg hq, List.mem_filter, List.any_eq_true] at hmem
    obtain ⟨-, c, hc, hmatch⟩ := hmem
    rw [v3ColMatch_nullish (hall c hc)] at hmatch
    exact Bool.false_ne_true hmatch
  · intro hq hall hmem
    simp only [filteredDataV2, if_neg hq, List.mem_filter, List.any_eq_true] at hmem
    obtain ⟨-, k, hk, hmatch⟩ := hmem
    obtain ⟨c, hc, hck⟩ := List.mem_map.1 hk
    rw [← hck] at hmatch
    rw [v2ColMatch_nullish (hall c hc)] at hmatch
    exact Bool.false_ne_true hmatch

/-- C4 witness: `filter_null_guard` at a concrete all-null row. -/
theorem filter_null_guard_witness :
    (isNullish JSValue.null = true → v3ColMatch JSValue.null "x" = false) ∧
    (trimS "x" ≠ "") ∧
    rowNull ∉ filteredDataV3 [rowNull] [colG] "x" :=
  ⟨(filter_null_guard JSValue.null "x" [rowNull] [colG] "x" rowNull).1,
   by decide,
   (filter_null_guard JSValue.null "x" [rowNull] [colG] "x" rowNull).2.2.1
     (by decide) (by decide)⟩

/-- C4 counterexample: in the v4 Filter stage the query `"null"` matches
a row whose only field value is `null` — the null field is coerced to
the string `"null"` and contributes the match. -/
theorem filter_null_guard_counterexample :
    rowNull ∈ filteredData [rowNull] [colG] "null" ∧
    isNullish (getField rowNull "g") = true := by decide

/-! ### Claim C2: sort stability -/

theorem map_snd_indexedFrom : ∀ (n : Nat) (l : List α),
    (indexedFrom n l).map Prod.snd = l
  | _, [] => rfl
  | n, a :: as => by
    simp [indexedFrom, map_snd_indexedFrom (n + 1) as]

theorem indexedFrom_fst_ge : ∀ (n : Nat) (l : List α),
    ∀ y ∈ indexedFrom n l, n ≤ y.1
  | _, [], y, hy => by simp [indexedFrom] at hy
  | n, a :: as, y, hy => by
    simp only [indexedFrom, List.mem_cons] at hy
    rcases hy with h | h
    · rw [h]
    · have := indexedFrom_fst_ge (n + 1) as y h
      omega

theorem indexedFrom_fst_lt : ∀ (n : Nat) (l : List α),
    (indexedFrom n l).Pairwise fun x z => x.1 < z.1
  | _, [] => List.Pairwise.nil
  | n, a :: as => by
    rw [indexedFrom, List.pairwise_cons]
    refine ⟨fun y hy => ?_, indexedFrom_fst_lt (n + 1) as⟩
    have := indexedFrom_fst_ge (n + 1) as y hy
    omega

/-- C2.  The Sort stage is stable, under either direction: the output of
v4's `sortedData` with an active key is a permutation of its input in
which the subsequence of rows tying (comparator value 0) with any fixed
row is unchanged — so any two equal-keyed rows keep their relative
input order; and v2's index-decorating `stableSort` has the same two
properties for every comparator and every set of mutually tying
elements. -/
theorem sort_stability (rows : List Row) (k : String) (dir : SortDir) :
    (sortedData rows ⟨some k, dir⟩).Perm rows ∧
    (∀ x : Row,
      (sortedData rows ⟨some k, dir⟩).filter
        (fun r => valCompare dir (getField r k) (getField x k) == 0) =
      rows.filter
        (fun r => valCompare dir (getField r k) (getField x k) == 0)) ∧
    (∀ (cmp : Row → Row → Int) (l : List Row) (p : Row → Bool),
      (∀ a b, p a = true → p b = true → cmp a b = 0) →
      (stableSortV2 cmp l).Perm l ∧
      (stableSortV2 cmp l).filter p = l.filter p) := by
  refine ⟨jsSort_perm _ rows, fun x => ?_, fun cmp l p hp => ⟨?_, ?_⟩⟩
  · show (jsSort (rowCmp dir k) rows).filter _ = _
    refine filter_jsSort _ _ rows (pairwise_of_forall ?_ rows)
    intro a b hpa hpb
    rw [beq_iff_eq, valCompare_eq_zero_iff] at hpa hpb
    have : rowCmp dir k a b = 0 := by
      unfold rowCmp
      rw [valCompare_eq_zero_iff, hpa, hpb]
    rw [this]
  · unfold stableSortV2
    have h2 := (jsSort_perm (decoratedCmp cmp) (indexedFrom 0 l)).map Prod.snd
    rw [map_snd_indexedFrom] at h2
    exact h2
  · unfold stableSortV2
    have hpw :
        (indexedFrom 0 l).Pairwise fun x z =>
          (fun y => p y.2) x = true → (fun y => p y.2) z = true →
            decoratedCmp cmp x z ≤ 0 := by
      refine (indexedFrom_fst_lt 0 l).imp ?_
      intro x z hlt hpx hpz
      unfold decoratedCmp
      rw [hp x.2 z.2 hpx hpz]
      simp
      omega
    have h1 := filter_jsSort (decoratedCmp cmp) (fun y => p y.2)
      (indexedFrom 0 l) hpw
    have e1 : ((jsSort (decoratedCmp cmp) (indexedFrom 0 l)).map Prod.snd).filter p =
        ((jsSort (decoratedCmp cmp) (indexedFrom 0 l)).filter
          (fun y => p y.2)).map Prod.snd := by
      rw [List.filter_map]
      rfl
    have e2 : ((indexedFrom 0 l).map Prod.snd).filter p =
        ((indexedFrom 0 l).filter (fun y => p y.2)).map Prod.snd := by
      rw [List.filter_map]
      rfl
    rw [map_snd_indexedFrom] at e2
    rw [e1, h1]
    exact e2.symm

/-- C2 witness: `sort_stability` at concrete inputs, with the v2 clause
instantiated at a mutually-tying comparator. -/
theorem sort_stability_witness :
    (sortedData [rowAB] ⟨some "f", SortDir.asc⟩).Perm [rowAB] ∧
    (stableSortV2 (fun _ _ => 0) [rowAB, rowNull]).Perm [rowAB, rowNull] ∧
    (stableSortV2 (fun (_ : Row) (_ : Row) => (0 : Int)) [rowAB, rowNull]).filter
        (fun _ => true) =
      [rowAB, rowNull].filter (fun _ => true) :=
  ⟨(sort_stability [rowAB] "f" SortDir.asc).1,
   ((sort_stability [rowAB] "f" SortDir.asc).2.2 (fun _ _ => 0) [rowAB, rowNull]
      (fun _ => true) (fun _ _ _ _ => rfl)).1,
   ((sort_stability [rowAB] "f" SortDir.asc).2.2 (fun _ _ => 0) [rowAB, rowNull]
      (fun _ => true) (fun _ _ _ _ => rfl)).2⟩

/-! ### Claim C3: nulls last, invariant under direction -/

theorem valCompare_nullish_left {u : JSValue} (hu : isNullish u = true)
    {v : JSValue} (huv : u ≠ v) (dir : SortDir) : valCompare dir u v = 1 := by
  unfold valCompare
  rw [if_neg huv, if_pos hu]

theorem valCompare_nullish_right {u v : JSValue} (hu : isNullish u = false)
    (hv : isNullish v = true) (huv : u ≠ v) (dir : SortDir) :
    valCompare dir u v = -1 := by
  unfold valCompare
  rw [if_neg huv, if_neg (by rw [hu]; exact Bool.false_ne_true), if_pos hv]

theorem valCompare_defined {u v : JSValue} (hu : isNullish u = false)
    (hv : isNullish v = false) (huv : u ≠ v) (dir : SortDir) :
    valCompare dir u v =
      if dir = SortDir.asc then baseCompare u v else -(baseCompare u v) := by
  unfold valCompare
  rw [if_neg huv, if_neg (by rw [hu]; exact Bool.false_ne_true),
    if_neg (by rw [hv]; exact Bool.false_ne_true)]

/-- C3.  Under either direction, v4's Sort stage places every row whose
sort-key value is null/undefined after all rows with a defined value
(pairwise in the output, a nullish-keyed row is never followed by a
defined-keyed one), and the descending comparator negates the base
comparison only on pairs of defined values: on any pair involving a
null/undefined value it returns the same result as the ascending
comparator. -/
theorem sort_nulls_last (rows : List Row) (k : String) (dir : SortDir) :
    (sortedData rows ⟨some k, dir⟩).Pairwise
      (fun a b => isNullish (getField a k) = true →
        isNullish (getField b k) = true) ∧
    (∀ u v : JSValue, isNullish u = true ∨ isNullish v = true →
      valCompare SortDir.desc u v = valCompare SortDir.asc u v) ∧
    (∀ u v : JSValue, isNullish u = false → isNullish v = false →
      valCompare SortDir.desc u v = -(valCompare SortDir.asc u v)) := by
  refine ⟨?_, ?_, ?_⟩
  · show (jsSort (rowCmp dir k) rows).Pairwise _
    refine pairwise_jsSort (fun a b d hab hbd ha => hbd (hab ha)) ?_ ?_ rows
    · intro a b hnc ha
      by_contra hb
      have hb2 : isNullish (getField b k) = false := by
        cases hval : isNullish (getField b k)
        · rfl
        · exact absurd hval hb
      have huv : getField a k ≠ getField b k := by
        intro h
        rw [h, hb2] at ha
        exact Bool.false_ne_true ha
      have := valCompare_nullish_left ha huv dir
      unfold rowCmp at hnc
      rw [this] at hnc
      omega
    · intro a b hc hb
      by_contra ha
      have ha2 : isNullish (getField a k) = false := by
        cases hval : isNullish (getField a k)
        · rfl
        · exact absurd hval ha
      have huv : getField a k ≠ getField b k := by
        intro h
        rw [← h, ha2] at hb
        exact Bool.false_ne_true hb
      have := valCompare_nullish_right ha2 hb huv dir
      unfold rowCmp at hc
      rw [this] at hc
      omega
  · intro u v h
    by_cases huv : u = v
    · subst huv
      simp [valCompare]
    · rcases h with hu | hv
      · rw [valCompare_nullish_left hu huv, valCompare_nullish_left hu huv]
      · cases hval : isNullish u
        · rw [valCompare_nullish_right hval hv huv,
            valCompare_nullish_right hval hv huv]
        · rw [valCompare_nullish_left hval huv, valCompare_nullish_left hval huv]
  · intro u v hu hv
    by_cases huv : u = v
    · subst huv
      simp [valCompare]
    · rw [valCompare_defined hu hv huv, valCompare_defined hu hv huv]
      simp

/-- C3 witness: `sort_nulls_last` at concrete inputs: a descending sort
leaves the null-keyed row last, and the comparator clauses at a nullish
pair and a defined pair. -/
theorem sort_nulls_last_witness :
    (sortedData [rowNull] ⟨some "g", SortDir.desc⟩).Pairwise
      (fun a b => isNullish (getField a "g") = true →
        isNullish (getField b "g") = true) ∧
    valCompare SortDir.desc JSValue.null (JSValue.str "x") =
      valCompare SortDir.asc JSValue.null (JSValue.str "x") ∧
    valCompare SortDir.desc (JSValue.str "a") (JSValue.str "b") =
      -(valCompare SortDir.asc (JSValue.str "a") (JSValue.str "b")) :=
  ⟨(sort_nulls_last [rowNull] "g" SortDir.desc).1,
   (sort_nulls_last [rowNull] "g" SortDir.desc).2.1 JSValue.null (JSValue.str "x")
     (Or.inl (by decide)),
   (sort_nulls_last [rowNull] "g" SortDir.desc).2.2 (JSValue.str "a")
     (JSValue.str "b") (by decide) (by decide)⟩

/-! ### Claim C5: pagination bounds invariant -/

/-- The precondition on commands: page sizes chosen through the UI are
positive (the select offers `pageSizeOptions`, positive by contract). -/
def ValidOp : Op → Prop
  | Op.setPageSize n => 1 ≤ n
  | _ => True

theorem clampPage_ge_one (tp : Nat) (n : Int) : 1 ≤ clampPage tp n := by
  unfold clampPage
  have h : (1 : Int) ≤ max 1 (min n (tp : Int)) := le_max_left _ _
  omega

/-- The stored state invariant: the stored page and the page size stay
positive under every valid command. -/
theorem step_inv (rows : List Row) (cols : List Col) (s : TState) (op : Op)
    (hop : ValidOp op) (_h1 : 1 ≤ s.currentPage) (h2 : 1 ≤ s.pageSize) :
    1 ≤ (step rows cols s op).currentPage ∧ 1 ≤ (step rows cols s op).pageSize := by
  cases op with
  | setFilterQuery q => exact ⟨le_refl 1, h2⟩
  | toggleSort k => exact ⟨le_refl 1, h2⟩
  | setPageSize n => exact ⟨le_refl 1, hop⟩
  | goToPage n => exact ⟨clampPage_ge_one _ _, h2⟩
  | nextPage => exact ⟨clampPage_ge_one _ _, h2⟩
  | prevPage => exact ⟨clampPage_ge_one _ _, h2⟩

theorem run_inv (rows : List Row) (cols : List Col) :
    ∀ (ops : List Op) (s : TState), (∀ op ∈ ops, ValidOp op) →
      1 ≤ s.currentPage → 1 ≤ s.pageSize →
      1 ≤ (run rows cols s ops).currentPage ∧ 1 ≤ (run rows cols s ops).pageSize
  | [], s, _, h1, h2 => ⟨h1, h2⟩
  | op :: ops, s, hops, h1, h2 => by
    have hstep := step_inv rows cols s op (hops op (List.mem_cons_self _ _)) h1 h2
    exact run_inv rows cols ops (step rows cols s op)
      (fun o ho => hops o (List.mem_cons_of_mem _ ho)) hstep.1 hstep.2

/-- C5.  From the initial state with any positive default page size, and
any sequence of public commands in which every page-size change is
positive, the observable snapshot always satisfies
`1 ≤ currentPage ≤ totalPages` — also when filtering has shrunk the row
set below the stored page. -/
theorem pagination_bounds (rows : List Row) (cols : List Col)
    (dps : Nat) (ops : List Op) (h1 : 1 ≤ dps)
    (h2 : ∀ op ∈ ops, ValidOp op) :
    1 ≤ (snapshot rows cols (run rows cols (initState dps) ops)).currentPage ∧
    (snapshot rows cols (run rows cols (initState dps) ops)).currentPage ≤
      (snapshot rows cols (run rows cols (initState dps) ops)).totalPages := by
  have hinv := run_inv rows cols ops (initState dps) h2 (le_refl 1) h1
  constructor
  · show 1 ≤ safePageC (run rows cols (initState dps) ops).currentPage
      (totalPagesC (derivedRows rows cols (run rows cols (initState dps) ops)).length
        (run rows cols (initState dps) ops).pageSize)
    unfold safePageC totalPagesC
    have := hinv.1
    omega
  · show safePageC _ _ ≤ totalPagesC _ _
    unfold safePageC
    exact min_le_right _ _

/-- C5 witness: `pagination_bounds` on a concrete command sequence that
navigates beyond the end and then filters everything away. -/
theorem pagination_bounds_witness :
    1 ≤ (5 : Nat) ∧
    (∀ op ∈ [Op.goToPage 3, Op.setFilterQuery "zzz"], ValidOp op) ∧
    (1 ≤ (snapshot [rowAB] [colF]
        (run [rowAB] [colF] (initState 5)
          [Op.goToPage 3, Op.setFilterQuery "zzz"])).currentPage ∧
      (snapshot [rowAB] [colF]
        (run [rowAB] [colF] (initState 5)
          [Op.goToPage 3, Op.setFilterQuery "zzz"])).currentPage ≤
        (snapshot [rowAB] [colF]
          (run [rowAB] [colF] (initState 5)
            [Op.goToPage 3, Op.setFilterQuery "zzz"])).totalPages) :=
  ⟨by decide, by intro op hop; fin_cases hop <;> trivial,
   pagination_bounds [rowAB] [colF] 5 [Op.goToPage 3, Op.setFilterQuery "zzz"]
     (by decide) (by intro op hop; fin_cases hop <;> trivial)⟩

/-! ### Claim C6: reset on change, frame of navigation -/

/-- C6.  Every `setFilterQuery`, `toggleSort` or `setPageSize` command
resets the stored `currentPage` to 1, whatever the prior page; the
navigation commands (`goToPage`, `nextPage`, `prevPage`) leave the
filter text, sort key, sort direction and page size unchanged, and
`goToPage` stores the clamped target rather than resetting. -/
theorem reset_and_frame (rows : List Row) (cols : List Col) (s : TState)
    (q k : String) (n : Nat) (m : Int) :
    (step rows cols s (Op.setFilterQuery q)).currentPage = 1 ∧
    (step rows cols s (Op.toggleSort k)).currentPage = 1 ∧
    (step rows cols s (Op.setPageSize n)).currentPage = 1 ∧
    (step rows cols s (Op.goToPage m)).filterText = s.filterText ∧
    (step rows cols s (Op.goToPage m)).sortKey = s.sortKey ∧
    (step rows cols s (Op.goToPage m)).sortDir = s.sortDir ∧
    (step rows cols s (Op.goToPage m)).pageSize = s.pageSize ∧
    (step rows cols s Op.nextPage).filterText = s.filterText ∧
    (step rows cols s Op.nextPage).sortKey = s.sortKey ∧
    (step rows cols s Op.nextPage).sortDir = s.sortDir ∧
    (step rows cols s Op.nextPage).pageSize = s.pageSize ∧
    (step rows cols s Op.prevPage).filterText = s.filterText ∧
    (step rows cols s Op.prevPage).sortKey = s.sortKey ∧
    (step rows cols s Op.prevPage).sortDir = s.sortDir ∧
    (step rows cols s Op.prevPage).pageSize = s.pageSize ∧
    (step rows cols s (Op.goToPage m)).currentPage =
      clampPage (tpOf rows cols s) m :=
  ⟨rfl, rfl, rfl, rfl, rfl, rfl, rfl, rfl, rfl, rfl, rfl, rfl, rfl, rfl, rfl, rfl⟩

/-! ### Claim C7: toggleSort transitions -/

/-- Flip ascending and descending. -/
def flipDir : SortDir → SortDir
  | SortDir.asc => SortDir.desc
  | SortDir.desc => SortDir.asc

/-- C7.  `toggleSort k` always makes `k` the (unique) active key; when
`k` was already active the direction flips, otherwise it resets to
ascending; and a second consecutive `toggleSort k` always flips again —
so repeated toggling of one key cycles asc, desc, asc, … and never
returns to the unsorted `key = none` state. -/
theorem toggle_transition (rows : List Row) (cols : List Col) (s : TState)
    (k : String) :
    (step rows cols s (Op.toggleSort k)).sortKey = some k ∧
    (s.sortKey = some k →
      (step rows cols s (Op.toggleSort k)).sortDir = flipDir s.sortDir) ∧
    (s.sortKey ≠ some k →
      (step rows cols s (Op.toggleSort k)).sortDir = SortDir.asc) ∧
    (step rows cols (step rows cols s (Op.toggleSort k)) (Op.toggleSort k)).sortDir =
      flipDir (step rows cols s (Op.toggleSort k)).sortDir := by
  refine ⟨rfl, ?_, ?_, ?_⟩
  · intro h
    show toggledDir s k = flipDir s.sortDir
    unfold toggledDir flipDir
    cases hd : s.sortDir
    · rw [if_pos ⟨h, rfl⟩]
    · rw [if_neg (fun hc => SortDir.noConfusion hc.2)]
  · intro h
    show toggledDir s k = SortDir.asc
    unfold toggledDir
    rw [if_neg (fun hc => h hc.1)]
  · show (if (some k : Option String) = some k ∧ toggledDir s k = SortDir.asc
        then SortDir.desc else SortDir.asc) = flipDir (toggledDir s k)
    cases hd : toggledDir s k
    · rw [if_pos ⟨rfl, rfl⟩]
      rfl
    · rw [if_neg (fun hc => SortDir.noConfusion hc.2)]
      rfl

/-- C7 witness: `toggle_transition` at concrete states: toggling a fresh
key activates it ascending; toggling the already-active ascending key
flips to descending; a second toggle always flips. -/
theorem toggle_transition_witness :
    (step [] [] (initState 7) (Op.toggleSort "a")).sortKey = some "a" ∧
    (step [] [] (initState 7) (Op.toggleSort "a")).sortDir = SortDir.asc ∧
    (step [] [] ⟨"", some "a", SortDir.asc, 1, 5⟩ (Op.toggleSort "a")).sortDir =
      flipDir SortDir.asc ∧
    (step [] [] (step [] [] (initState 7) (Op.toggleSort "a"))
        (Op.toggleSort "a")).sortDir =
      flipDir (step [] [] (initState 7) (Op.toggleSort "a")).sortDir :=
  ⟨(toggle_transition [] [] (initState 7) "a").1,
   (toggle_transition [] [] (initState 7) "a").2.2.1 (by decide),
   (toggle_transition [] [] ⟨"", some "a", SortDir.asc, 1, 5⟩ "a").2.1 rfl,
   (toggle_transition [] [] (initState 7) "a").2.2.2⟩

/-! ### Claim C8: pagination arithmetic -/

theorem ceil_div_mul_ge (len ps : Nat) (hps : 1 ≤ ps) :
    len ≤ ((len + ps - 1) / ps) * ps := by
  have h := Nat.div_add_mod (len + ps - 1) ps
  have hr : (len + ps - 1) % ps < ps := Nat.mod_lt _ (by omega)
  rw [Nat.mul_comm]
  generalize hm : ps * ((len + ps - 1) / ps) = m at h ⊢
  generalize hq : (len + ps - 1) % ps = r at h hr
  omega

theorem ceil_div_pred_mul_lt (len ps : Nat) (hps : 1 ≤ ps) (hlen : 1 ≤ len) :
    ((len + ps - 1) / ps - 1) * ps < len := by
  have h := Nat.div_add_mod (len + ps - 1) ps
  have hr : (len + ps - 1) % ps < ps := Nat.mod_lt _ (by omega)
  rw [Nat.sub_mul, Nat.one_mul, Nat.mul_comm]
  generalize hm : ps * ((len + ps - 1) / ps) = m at h ⊢
  generalize hq : (len + ps - 1) % ps = r at h hr
  omega

/-- The code's `(len + ps - 1) / ps` is the rational ceiling
`⌈len / ps⌉`. -/
theorem totalPagesC_eq_ceil (len ps : Nat) (hps : 1 ≤ ps) :
    totalPagesC len ps = max 1 ⌈(len : ℚ) / (ps : ℚ)⌉₊ := by
  unfold totalPagesC
  congr 1
  have hps' : (0 : ℚ) < (ps : ℚ) := by
    have : 0 < ps := by omega
    exact_mod_cast this
  by_cases hlen : len = 0
  · subst hlen
    rw [Nat.zero_add, Nat.div_eq_of_lt (by omega)]
    rw [Nat.cast_zero, zero_div, Nat.ceil_zero]
  · refine le_antisymm ?_ ?_
    · have h2 : (len + ps - 1) / ps - 1 < ⌈(len : ℚ) / (ps : ℚ)⌉₊ := by
        rw [Nat.lt_ceil, lt_div_iff₀ hps']
        exact_mod_cast ceil_div_pred_mul_lt len ps hps (by omega)
      have h4 := ceil_div_mul_ge len ps hps
      generalize hq : (len + ps - 1) / ps = q at h2 h4 ⊢
      have h3 : 1 ≤ q := by
        rcases Nat.eq_zero_or_pos q with h0 | h1
        · exfalso
          rw [h0, Nat.zero_mul] at h4
          omega
        · exact h1
      clear h4
      omega
    · rw [Nat.ceil_le, div_le_iff₀ hps']
      exact_mod_cast ceil_div_mul_ge len ps hps

/-- C8.  Pagination arithmetic of the v4 stage: `totalItems` is the row
count, `totalPages = max(1, ⌈totalItems / pageSize⌉)`, and the page
slice is `rows[(effectivePage-1)·ps : effectivePage·ps]`; an empty row
list yields `totalPages = 1`, effective page 1, and an empty slice. -/
theorem pagination_arithmetic (rows : List Row) (ps cur : Nat)
    (hps : 1 ≤ ps) (hcur : 1 ≤ cur) :
    (paginateStage rows cur ps).2.2 = rows.length ∧
    (paginateStage rows cur ps).2.1 = max 1 ⌈(rows.length : ℚ) / (ps : ℚ)⌉₊ ∧
    (paginateStage rows cur ps).1 =
      (rows.take (safePageC cur (totalPagesC rows.length ps) * ps)).drop
        ((safePageC cur (totalPagesC rows.length ps) - 1) * ps) ∧
    (rows = [] →
      (paginateStage rows cur ps).2.1 = 1 ∧
      safePageC cur (totalPagesC rows.length ps) = 1 ∧
      (paginateStage rows cur ps).1 = []) := by
  refine ⟨rfl, totalPagesC_eq_ceil rows.length ps hps, ?_, ?_⟩
  · show paginatedData rows (safePageC cur (totalPagesC rows.length ps)) ps = _
    have h1 : 1 ≤ safePageC cur (totalPagesC rows.length ps) :=
      le_min hcur (le_max_left _ _)
    have h2 : (safePageC cur (totalPagesC rows.length ps) - 1) * ps + ps =
        safePageC cur (totalPagesC rows.length ps) * ps := by
      generalize safePageC cur (totalPagesC rows.length ps) = sp at h1
      cases sp with
      | zero => omega
      | succ m => simp [Nat.succ_sub_one, Nat.succ_mul]
    unfold paginatedData
    rw [List.take_drop, h2]
  · intro hrows
    subst hrows
    have htp : totalPagesC (List.length ([] : List Row)) ps = 1 := by
      unfold totalPagesC
      rw [List.length_nil, Nat.zero_add, Nat.div_eq_of_lt (by omega)]
      decide
    refine ⟨htp, ?_, ?_⟩
    · rw [htp]
      unfold safePageC
      omega
    · show paginatedData [] (safePageC cur (totalPagesC (List.length ([] : List Row)) ps)) ps = []
      simp [paginatedData]

/-- C8 witness: `pagination_arithmetic` at one row, page size 2, stored
page 3. -/
theorem pagination_arithmetic_witness :
    1 ≤ (2 : Nat) ∧ 1 ≤ (3 : Nat) ∧
    (paginateStage [rowAB] 3 2).2.1 =
      max 1 ⌈((List.length [rowAB] : Nat) : ℚ) / ((2 : Nat) : ℚ)⌉₊ ∧
    (paginateStage [rowAB] 3 2).1 =
      ([rowAB].take (safePageC 3 (totalPagesC (List.length [rowAB]) 2) * 2)).drop
        ((safePageC 3 (totalPagesC (List.length [rowAB]) 2) - 1) * 2) :=
  ⟨by decide, by decide,
   (pagination_arithmetic [rowAB] 2 3 (by decide) (by decide)).2.1,
   (pagination_arithmetic [rowAB] 2 3 (by decide) (by decide)).2.2.1⟩

/-! ### Claim C9: clamp-on-read -/

/-- C9.  Reading a snapshot derives the observable page as
`clamp(currentPage, 1, totalPages)` without mutating the stored page:
the stored page is written only by the reset-to-1 commands and the
clamping navigation commands, and whenever the stored page is within
the (recomputed) total pages — e.g. after a shrinking filter is removed
again — the snapshot shows the stored page itself. -/
theorem clamp_on_read (rows : List Row) (cols : List Col) (s : TState)
    (h : 1 ≤ s.currentPage) :
    (snapshot rows cols s).currentPage =
      max 1 (min s.currentPage (snapshot rows cols s).totalPages) ∧
    (s.currentPage ≤ (snapshot rows cols s).totalPages →
      (snapshot rows cols s).currentPage = s.currentPage) ∧
    (∀ op : Op, (step rows cols s op).currentPage = 1 ∨
      ∃ t : Int, (step rows cols s op).currentPage =
        clampPage (tpOf rows cols s) t) := by
  refine ⟨?_, ?_, ?_⟩
  · show safePageC s.currentPage _ = max 1 (min s.currentPage _)
    unfold safePageC
    exact (max_eq_right (le_min h (le_max_left _ _))).symm
  · intro hle
    show safePageC s.currentPage _ = s.currentPage
    exact min_eq_left hle
  · intro op
    cases op with
    | setFilterQuery q => exact Or.inl rfl
    | toggleSort k => exact Or.inl rfl
    | setPageSize n => exact Or.inl rfl
    | goToPage n => exact Or.inr ⟨n, rfl⟩
    | nextPage => exact Or.inr ⟨(s.currentPage : Int) + 1, rfl⟩
    | prevPage => exact Or.inr ⟨(s.currentPage : Int) - 1, rfl⟩

/-- C9 witness: `clamp_on_read` at a state whose stored page 2 is within
bounds over two rows at page size 1, so the snapshot shows page 2
unchanged. -/
theorem clamp_on_read_witness :
    1 ≤ (2 : Nat) ∧
    (2 : Nat) ≤ (snapshot [rowAB, rowNull] [colF]
      ⟨"", none, SortDir.asc, 2, 1⟩).totalPages ∧
    (snapshot [rowAB, rowNull] [colF]
      ⟨"", none, SortDir.asc, 2, 1⟩).currentPage = 2 :=
  ⟨by decide, by decide,
   (clamp_on_read [rowAB, rowNull] [colF] ⟨"", none, SortDir.asc, 2, 1⟩
     (by decide)).2.1 (by decide)⟩

/-! ### Claim C10: only sortable columns become the sort key -/

theorem uiStep_sortKey_inv (rows : List Row) (cols : List Col) (s : TState)
    (ev : UIEvent)
    (h : s.sortKey = none ∨
      ∃ c ∈ cols, s.sortKey = some c.key ∧ c.sortable = some true) :
    (uiStep rows cols s ev).sortKey = none ∨
    ∃ c ∈ cols, (uiStep rows cols s ev).sortKey = some c.key ∧
      c.sortable = some true := by
  have hgate : ∀ i : Nat, (headerFire rows cols s i).sortKey = none ∨
      ∃ c ∈ cols, (headerFire rows cols s i).sortKey = some c.key ∧
        c.sortable = some true := by
    intro i
    unfold headerFire
    cases hc : cols[i]? with
    | none => exact h
    | some c =>
      dsimp only
      by_cases hs : c.sortable = some true
      · rw [if_pos hs]
        exact Or.inr ⟨c, List.getElem?_mem hc, rfl, hs⟩
      · rw [if_neg hs]
        exact h
  cases ev with
  | typeFilter q => exact h
  | clickHeader i => exact hgate i
  | keyHeader i => exact hgate i
  | choosePageSize n => exact h
  | clickPage n => exact h
  | clickNext => exact h
  | clickPrev => exact h

theorem uiRun_sortKey_inv (rows : List Row) (cols : List Col) :
    ∀ (evs : List UIEvent) (s : TState),
      (s.sortKey = none ∨
        ∃ c ∈ cols, s.sortKey = some c.key ∧ c.sortable = some true) →
      (uiRun rows cols s evs).sortKey = none ∨
      ∃ c ∈ cols, (uiRun rows cols s evs).sortKey = some c.key ∧
        c.sortable = some true
  | [], _, h => h
  | ev :: evs, s, h =>
    uiRun_sortKey_inv rows cols evs (uiStep rows cols s ev)
      (uiStep_sortKey_inv rows cols s ev h)

/-- C10.  From the default state, after any sequence of UI events
(filter typing, header clicks, header key presses, page-size choices,
page navigation), the active sort key is either none or the key of a
rendered column whose `sortable` flag is `true` — a column whose flag
is `false` or absent can never become the sort key, because both the
click and the keydown header handlers are gated on the flag. -/
theorem sortable_gate (rows : List Row) (cols : List Col) (dps : Nat)
    (evs : List UIEvent) :
    (uiRun rows cols (initState dps) evs).sortKey = none ∨
    ∃ c ∈ cols, (uiRun rows cols (initState dps) evs).sortKey = some c.key ∧
      c.sortable = some true :=
  uiRun_sortKey_inv rows cols evs (initState dps) (Or.inl rfl)
